import Mathlib

/-!
# Verification of the Calico policy resolution engine

A shallow embedding of the policy resolution engine of the Calico felix
agent: the Policy Resolver (`felix/calc/policy_resolver.go`), the Active
Rules Calculator (`felix/calc/active_rules_calculator.go`) and the Policy
Sorter (`felix/calc/policy_sorter.go`).  The implementation files
themselves are not part of this source snapshot — only their unit tests
(`felix/calc/policy_resolver_test.go` and the ARC test file) are — so
every component below is modelled from the specification, with the unit
tests fixing the observable details (field names, flush shapes, index
behaviour).
-/

namespace CalicoCalc

/-! ## Association-list maps

The Go code keeps its state in plain `map`s.  We model each map as an
association list with insert-or-replace (`aset`), key removal
(`aremoveKey`) and lookup (`alookup`) — executable and easy to reason
about. -/

/-- Lookup in an association list (Go `m[k]` with `ok` flag as `Option`). -/
def alookup [DecidableEq κ] (k : κ) : List (κ × ν) → Option ν
  | [] => none
  | (k', v) :: rest => if k = k' then some v else alookup k rest

/-- Insert-or-replace in an association list (Go `m[k] = v`). -/
def aset [DecidableEq κ] (k : κ) (v : ν) : List (κ × ν) → List (κ × ν)
  | [] => [(k, v)]
  | (k', v') :: rest => if k = k' then (k, v) :: rest else (k', v') :: aset k v rest

/-- Remove a key from an association list (Go `delete(m, k)`). -/
def aremoveKey [DecidableEq κ] (k : κ) (l : List (κ × ν)) : List (κ × ν) :=
  l.filter (fun kv => !decide (kv.1 = k))

theorem alookup_aset_self [DecidableEq κ] (k : κ) (v : ν) (l : List (κ × ν)) :
    alookup k (aset k v l) = some v := by
  induction l with
  | nil => simp [aset, alookup]
  | cons kv rest ih =>
    by_cases h : k = kv.1
    · simp [aset, h, alookup]
    · simp [aset, h, alookup, ih]

theorem alookup_aset_other [DecidableEq κ] (k k' : κ) (v : ν) (l : List (κ × ν))
    (hne : k' ≠ k) : alookup k' (aset k v l) = alookup k' l := by
  induction l with
  | nil => simp [aset, alookup, hne]
  | cons kv rest ih =>
    by_cases h : k = kv.1
    · subst h
      simp [aset, alookup, hne]
    · by_cases h' : k' = kv.1
      · simp [aset, h, alookup, h']
      · simp [aset, h, alookup, h', ih]

theorem alookup_aremoveKey_self [DecidableEq κ] (k : κ) (l : List (κ × ν)) :
    alookup k (aremoveKey k l) = none := by
  induction l with
  | nil => rfl
  | cons kv rest ih =>
    simp only [aremoveKey, List.filter_cons] at ih ⊢
    by_cases h : kv.1 = k
    · simpa [h] using ih
    · have hk : ¬ k = kv.1 := fun hh => h hh.symm
      simp [h, alookup, hk, ih]

theorem alookup_aremoveKey_other [DecidableEq κ] (k k' : κ) (l : List (κ × ν))
    (hne : k' ≠ k) : alookup k' (aremoveKey k l) = alookup k' l := by
  induction l with
  | nil => rfl
  | cons kv rest ih =>
    simp only [aremoveKey, List.filter_cons] at ih ⊢
    by_cases h : kv.1 = k
    · have hk : ¬ k' = kv.1 := fun hh => hne (hh.trans h)
      simp [h, alookup, hk, hne, ih]
    · by_cases h' : k' = kv.1
      · simp [h, alookup, h']
      · simp [h, alookup, h', ih]

theorem mem_aset [DecidableEq κ] (k : κ) (v : ν) (l : List (κ × ν)) (kv : κ × ν)
    (h : kv ∈ aset k v l) : kv ∈ l ∨ kv = (k, v) := by
  induction l with
  | nil => simpa [aset] using h
  | cons kv' rest ih =>
    by_cases hk : k = kv'.1
    · simp only [aset, if_pos hk, List.mem_cons] at h
      rcases h with h | h
      · right; exact h
      · left; exact List.mem_cons_of_mem _ h
    · simp only [aset, if_neg hk, List.mem_cons] at h
      rcases h with h | h
      · left; simp [h]
      · rcases ih h with h' | h'
        · left; exact List.mem_cons_of_mem _ h'
        · right; exact h'

theorem mem_aremoveKey [DecidableEq κ] (k : κ) (l : List (κ × ν)) (kv : κ × ν)
    (h : kv ∈ aremoveKey k l) : kv ∈ l :=
  List.mem_of_mem_filter h

/-! ## Set-valued maps (`MultiDict`)

The match indices `policyIDToEndpointIDs` / `endpointIDToPolicyIDs` are
set-valued maps: repeated insertion of a pair is idempotent, and removing
the last value under a key removes the key itself (so `ContainsKey`
becomes false, as the unit tests check). -/

/-- A set-valued map.  Modelled from the spec: "Bidirectional match
indices … maintained as sets (not bags): repeated inserts/removals of the
same pair are idempotent". -/
structure MultiDict (κ ν : Type) where
  entries : List (κ × List ν)

/-- The empty `MultiDict`. -/
def MultiDict.empty : MultiDict κ ν := ⟨[]⟩

/-- The set of values stored under a key (empty when the key is absent). -/
def MultiDict.get [DecidableEq κ] (d : MultiDict κ ν) (k : κ) : List ν :=
  (alookup k d.entries).getD []

/-- Whether the key is present at all (Go `ContainsKey`). -/
def MultiDict.containsKey [DecidableEq κ] (d : MultiDict κ ν) (k : κ) : Bool :=
  (alookup k d.entries).isSome

/-- Idempotent insertion of a pair (Go `Put`). -/
def MultiDict.add [DecidableEq κ] [DecidableEq ν] (d : MultiDict κ ν) (k : κ) (v : ν) :
    MultiDict κ ν :=
  let cur := d.get k
  if v ∈ cur then d else ⟨aset k (v :: cur) d.entries⟩

/-- Removal of a pair (Go `Discard`); removing the last value under a key
removes the key itself. -/
def MultiDict.remove [DecidableEq κ] [DecidableEq ν] (d : MultiDict κ ν) (k : κ) (v : ν) :
    MultiDict κ ν :=
  match alookup k d.entries with
  | none => d
  | some vs =>
    let vs' := vs.filter (fun x => x ≠ v)
    if vs' = [] then ⟨aremoveKey k d.entries⟩ else ⟨aset k vs' d.entries⟩

/-- Number of keys present (Go `Len`). -/
def MultiDict.len (d : MultiDict κ ν) : Nat := d.entries.length

/-- Well-formedness: no key is mapped to an empty set of values. -/
def MultiDict.WF (d : MultiDict κ ν) : Prop :=
  ∀ kv ∈ d.entries, kv.2 ≠ []

theorem MultiDict.wf_empty : (MultiDict.empty : MultiDict κ ν).WF := by
  intro kv h
  simp [MultiDict.empty] at h

theorem MultiDict.wf_add [DecidableEq κ] [DecidableEq ν] (d : MultiDict κ ν) (k : κ) (v : ν)
    (h : d.WF) : (d.add k v).WF := by
  by_cases hmem : v ∈ d.get k
  · simpa [MultiDict.add, hmem] using h
  · simp only [MultiDict.add, hmem, if_neg, not_false_iff]
    intro kv hkv
    rcases mem_aset k (v :: d.get k) d.entries kv hkv with h' | h'
    · exact h kv h'
    · subst h'; simp

theorem MultiDict.wf_remove [DecidableEq κ] [DecidableEq ν] (d : MultiDict κ ν) (k : κ) (v : ν)
    (h : d.WF) : (d.remove k v).WF := by
  rcases hl : alookup k d.entries with _ | vs
  · simpa [MultiDict.remove, hl] using h
  · by_cases hv : vs.filter (fun x => x ≠ v) = []
    · simp only [MultiDict.remove, hl, hv, if_pos]
      intro kv hkv
      exact h kv (mem_aremoveKey k d.entries kv hkv)
    · simp only [MultiDict.remove, hl, hv, if_neg, not_false_iff]
      intro kv hkv
      rcases mem_aset k _ d.entries kv hkv with h' | h'
      · exact h kv h'
      · subst h'; exact hv

/-- Removing the last value under a key removes the key itself. -/
theorem MultiDict.containsKey_remove_last [DecidableEq κ] [DecidableEq ν]
    (d : MultiDict κ ν) (k : κ) (v : ν) (h : d.get k = [v]) :
    (d.remove k v).containsKey k = false := by
  unfold MultiDict.get at h
  rcases hl : alookup k d.entries with _ | vs
  · rw [hl] at h; simp at h
  · rw [hl] at h
    simp only [Option.getD_some] at h
    subst h
    have hfil : (([v] : List ν).filter (fun x => x ≠ v)) = [] := by simp
    simp only [MultiDict.remove, hl, hfil, if_pos]
    unfold MultiDict.containsKey
    simp [alookup_aremoveKey_self]

/-- Looking up a key that maps (via `alookup`) to a value means the pair
is in the underlying entry list. -/
theorem alookup_mem [DecidableEq κ] (k : κ) (v : ν) (l : List (κ × ν))
    (h : alookup k l = some v) : (k, v) ∈ l := by
  induction l with
  | nil => simp [alookup] at h
  | cons kv rest ih =>
    by_cases hk : k = kv.1
    · simp only [alookup, if_pos hk] at h
      cases kv with
      | mk k' v' =>
        simp only at hk
        subst hk
        cases h
        simp
    · simp only [alookup, if_neg hk] at h
      exact List.mem_cons_of_mem _ (ih h)

/-- Replacing a key's value with the value it already has is the
identity. -/
theorem aset_self [DecidableEq κ] (k : κ) (v : ν) (l : List (κ × ν))
    (h : alookup k l = some v) : aset k v l = l := by
  induction l with
  | nil => simp [alookup] at h
  | cons kv rest ih =>
    by_cases hk : k = kv.1
    · simp only [alookup, if_pos hk] at h
      cases kv with
      | mk k' v' =>
        simp only at hk
        subst hk
        cases h
        simp [aset]
    · simp only [alookup, if_neg hk] at h
      simp [aset, hk, ih h]

/-- Removing a pair that is absent leaves a well-formed `MultiDict`
unchanged. -/
theorem MultiDict.remove_absent [DecidableEq κ] [DecidableEq ν]
    (d : MultiDict κ ν) (k : κ) (v : ν) (hwf : d.WF) (h : v ∉ d.get k) :
    d.remove k v = d := by
  unfold MultiDict.get at h
  rcases hl : alookup k d.entries with _ | vs
  · simp [MultiDict.remove, hl]
  · rw [hl] at h
    simp only [Option.getD_some] at h
    have hfil : vs.filter (fun x => x ≠ v) = vs := by
      apply List.filter_eq_self.2
      intro x hx
      have hxv : x ≠ v := fun hxv => h (hxv ▸ hx)
      simpa using hxv
    have hvs : vs ≠ [] := by
      intro hnil
      subst hnil
      exact hwf _ (alookup_mem k [] d.entries hl) rfl
    simp only [MultiDict.remove, hl, hfil, hvs, if_neg, not_false_iff]
    cases d with
    | mk entries => simp [aset_self k vs entries hl]

/-! ## Data model -/

/-- Identifies one policy resource.  Modelled from the spec: "PolicyKey
(PolicyID): composite of … policy name, optional namespace, and a kind
discriminator"; the unit tests build it as
`model.PolicyKey{Name: …, Kind: …}`. -/
structure PolicyKey where
  name : String
  namespaceName : String
  kind : String
deriving DecidableEq, Repr

/-- Identifies one endpoint.  Modelled from the spec: "an immutable,
comparable composite identifying a workload or host endpoint (e.g. host
name + orchestrator + workload id + endpoint id)", matching the tests'
`model.WorkloadEndpointKey`. -/
structure EndpointKey where
  hostname : String
  orchestratorID : String
  workloadID : String
  endpointID : String
deriving DecidableEq, Repr

/-- An endpoint value (the tests' `model.WorkloadEndpoint`): a name plus
the label set the ARC evaluates selectors against. -/
structure Endpoint where
  name : String
  labels : List (String × String)
deriving DecidableEq, Repr

/-- Modelled from the spec: "Policy metadata: a reduced, resolver-relevant
projection of a policy resource — its tier, an optional explicit numeric
order (absence implies ordering by name as tiebreak/fallback)". -/
structure PolicyMetadata where
  tier : String
  order : Option Int
deriving DecidableEq, Repr

/-- The zero `policyMetadata` value (what a Go map lookup yields for a
missing key). -/
def PolicyMetadata.zero : PolicyMetadata := { tier := "", order := none }

/-- A `(PolicyKey, metadata)` pair as carried in a tier's ordered policy
list (the tests' `PolKV`). -/
abbrev PolKV := PolicyKey × PolicyMetadata

/-- The tag identifying one category of auxiliary per-endpoint computed
data (`EndpointComputedDataKind`, an opaque string). -/
abbrev CDKind := String

/-- An opaque computed-data value; the resolver never inspects its
contents, only its identity. -/
abbrev CDValue := String

/-- Modelled from the spec: "TierInfo: tier name, a validity flag … and
an ordered sequence of (PolicyKey, metadata) pairs". -/
structure TierInfo where
  name : String
  valid : Bool
  orderedPolicies : List PolKV
deriving DecidableEq, Repr

/-- The datastore sync status (`api.SyncStatus`); only the transition to
`inSync` matters to the resolver. -/
inductive SyncStatus where
  | waitForDatastore
  | resyncInProgress
  | inSync
deriving DecidableEq, Repr

/-! ## Policy Sorter

Modelled from the spec (§4.3): per tier, a total order over all known
policies; "primary key is the policy's explicit numeric order if present;
ties (or absence of an explicit order) break by policy name, ascending".
A policy without an explicit order sorts after every explicitly ordered
policy (the name fallback applies among policies that both lack an
explicit order) — the only reading under which the comparison is
transitive and hence a total order. -/

/-- The sort key of a policy: its explicit numeric order when present
(`⊤`, i.e. after every explicitly ordered policy, when absent), then the
policy name as tiebreak, compared lexicographically. -/
def sortKey (a : PolKV) : Lex ((WithTop ℤ) × String) :=
  toLex ((a.2.order : WithTop ℤ), a.1.name)

/-- The sorter's total order over `(PolicyKey, metadata)` pairs. -/
def polLE (a b : PolKV) : Prop :=
  sortKey a ≤ sortKey b

instance : DecidableRel polLE := fun a b =>
  inferInstanceAs (Decidable (sortKey a ≤ sortKey b))

instance : IsTotal PolKV polLE := ⟨fun a b => le_total (sortKey a) (sortKey b)⟩

instance : IsTrans PolKV polLE := ⟨fun _ _ _ hab hbc => le_trans hab hbc⟩

/-- The state of the Policy Sorter: for each known tier, its name, its
validity flag and the full ordered list of known policies in it. -/
structure SorterState where
  tiers : List TierInfo
deriving Repr

/-- The empty sorter. -/
def SorterState.empty : SorterState := ⟨[]⟩

/-- Remove a policy key from every tier's ordered list. -/
def SorterState.clearPolicy (st : SorterState) (k : PolicyKey) : SorterState :=
  ⟨st.tiers.map fun t =>
    { t with orderedPolicies := t.orderedPolicies.filter (fun kv => !decide (kv.1 = k)) }⟩

/-- Insert a policy (already absent) into its tier's ordered list,
creating the tier — valid, per the spec tiers referenced by live policies
are well-formed unless separately invalidated — when it is not yet
known. -/
def SorterState.insertPolicy (st : SorterState) (k : PolicyKey) (m : PolicyMetadata) :
    SorterState :=
  if st.tiers.any (fun t => t.name = m.tier) then
    ⟨st.tiers.map fun t =>
      if t.name = m.tier then
        { t with orderedPolicies := t.orderedPolicies.orderedInsert polLE (k, m) }
      else t⟩
  else
    ⟨st.tiers ++ [{ name := m.tier, valid := true, orderedPolicies := [(k, m)] }]⟩

/-- Modelled from the spec: "`UpdatePolicy(key, metadata)` and an implicit
removal path (metadata update to a tombstone/removal) are the only
mutators" of the sorter. -/
def SorterState.updatePolicy (st : SorterState) (k : PolicyKey) (m : Option PolicyMetadata) :
    SorterState :=
  let cleared := st.clearPolicy k
  match m with
  | none => cleared
  | some md => cleared.insertPolicy k md

/-- Re-sort a tier's policy list from scratch (used to state determinism
of the sorter's order). -/
def sortPolicies (l : List PolKV) : List PolKV :=
  l.insertionSort polLE

/-! ## Policy Resolver

Modelled from the spec (§4.2) and pinned down by the observable behaviour
of `felix/calc/policy_resolver_test.go`: the resolver owns the two match
indices, the dirty set, the `allPolicies` / `endpoints` side tables, the
per-endpoint computed-data map and the sync flag, and emits one batched
snapshot per dirty endpoint at `Flush()`. -/

/-- Set insertion into a duplicate-free list (the dirty set is "a set,
not a counter"). -/
def listInsert [DecidableEq α] (x : α) (s : List α) : List α :=
  if x ∈ s then s else x :: s

/-- The Policy Resolver state. -/
structure PRState where
  allPolicies : List (PolicyKey × PolicyMetadata)
  endpoints : List (EndpointKey × Endpoint)
  policyIDToEndpointIDs : MultiDict PolicyKey EndpointKey
  endpointIDToPolicyIDs : MultiDict EndpointKey PolicyKey
  endpointComputedData : List (EndpointKey × List (CDKind × CDValue))
  dirtyEndpoints : List EndpointKey
  policySorter : SorterState
  inSync : Bool

/-- `NewPolicyResolver()`: everything empty, not yet in sync. -/
def newPolicyResolver : PRState :=
  { allPolicies := []
    endpoints := []
    policyIDToEndpointIDs := MultiDict.empty
    endpointIDToPolicyIDs := MultiDict.empty
    endpointComputedData := []
    dirtyEndpoints := []
    policySorter := SorterState.empty
    inSync := false }

/-- Modelled from the spec: "Match inserts into both indices and marks
the endpoint dirty"; the matched policy's metadata (the Go zero value
when `allPolicies` has no entry) is pushed into the Policy Sorter so the
flushed tier view can include it (§8 scenario). -/
def PRState.onPolicyMatch (s : PRState) (p : PolicyKey) (e : EndpointKey) : PRState :=
  { s with
    policyIDToEndpointIDs := s.policyIDToEndpointIDs.add p e
    endpointIDToPolicyIDs := s.endpointIDToPolicyIDs.add e p
    policySorter :=
      s.policySorter.updatePolicy p (some ((alookup p s.allPolicies).getD PolicyMetadata.zero))
    dirtyEndpoints := listInsert e s.dirtyEndpoints }

/-- Modelled from the spec: "match-stopped removes from both indices
(idempotent — removing an absent pair is a no-op on the indices …) and
marks the endpoint dirty". -/
def PRState.onPolicyMatchStopped (s : PRState) (p : PolicyKey) (e : EndpointKey) : PRState :=
  { s with
    policyIDToEndpointIDs := s.policyIDToEndpointIDs.remove p e
    endpointIDToPolicyIDs := s.endpointIDToPolicyIDs.remove e p
    dirtyEndpoints := listInsert e s.dirtyEndpoints }

/-- Modelled from the spec: "value non-nil upserts that kind's entry and
marks the endpoint dirty; value nil removes an existing entry and marks
dirty (only if an entry actually existed — a nil update when no entry
exists for that kind is a documented no-op that must not dirty the
endpoint)"; an inner map emptied by the removal is dropped entirely (the
`ComputedDataNilRemoves` unit test checks the outer entry is gone). -/
def PRState.onEndpointComputedDataUpdate (s : PRState) (e : EndpointKey) (kind : CDKind)
    (v : Option CDValue) : PRState :=
  match v with
  | some val =>
    let inner := (alookup e s.endpointComputedData).getD []
    { s with
      endpointComputedData := aset e (aset kind val inner) s.endpointComputedData
      dirtyEndpoints := listInsert e s.dirtyEndpoints }
  | none =>
    match alookup e s.endpointComputedData with
    | none => s
    | some inner =>
      if (alookup kind inner).isSome then
        let inner' := aremoveKey kind inner
        { s with
          endpointComputedData :=
            if inner' = [] then aremoveKey e s.endpointComputedData
            else aset e inner' s.endpointComputedData
          dirtyEndpoints := listInsert e s.dirtyEndpoints }
      else s

/-- Modelled from the spec: "when status transitions to `in sync`,
flushing is thereafter permitted". -/
def PRState.onDatamodelStatus (s : PRState) (st : SyncStatus) : PRState :=
  if st = SyncStatus.inSync then { s with inSync := true } else s

/-- The policy half of `OnUpdate`: a non-nil value upserts into
`allPolicies`; a nil value deletes. -/
def PRState.onPolicyUpdate (s : PRState) (k : PolicyKey) (v : Option PolicyMetadata) :
    PRState :=
  match v with
  | some m => { s with allPolicies := aset k m s.allPolicies }
  | none => { s with allPolicies := aremoveKey k s.allPolicies }

/-- The endpoint half of `OnUpdate`.  Modelled from the spec: a non-nil
value upserts into `endpoints`; deletion "must cascade: drop from the
endpoint→policy index, drop from the computed-data map, and mark dirty
one final time" (the policy→endpoint side is pruned too so the two
indices never diverge, §9). -/
def PRState.onEndpointUpdate (s : PRState) (k : EndpointKey) (v : Option Endpoint) : PRState :=
  match v with
  | some w =>
    { s with
      endpoints := aset k w s.endpoints
      dirtyEndpoints := listInsert k s.dirtyEndpoints }
  | none =>
    { s with
      endpoints := aremoveKey k s.endpoints
      policyIDToEndpointIDs :=
        (s.endpointIDToPolicyIDs.get k).foldl (fun d p => d.remove p k) s.policyIDToEndpointIDs
      endpointIDToPolicyIDs := ⟨aremoveKey k s.endpointIDToPolicyIDs.entries⟩
      endpointComputedData := aremoveKey k s.endpointComputedData
      dirtyEndpoints := listInsert k s.dirtyEndpoints }

/-- One snapshot delivered to a registered listener's
`OnEndpointTierUpdate` (BGP peer data is opaque to every claim and not
modelled). -/
structure EndpointUpdate where
  key : EndpointKey
  endpoint : Option Endpoint
  computedData : List CDValue
  tiers : List TierInfo
deriving DecidableEq, Repr

/-- The snapshot computed for one dirty endpoint at flush time: its
current value (`none` if deleted/never seen), its computed-data values,
and — for every tier known to the Policy Sorter — that tier's total
order filtered down to the endpoint's matched policies, tiers with zero
matches omitted. -/
def PRState.computeEndpointUpdate (s : PRState) (e : EndpointKey) : EndpointUpdate :=
  let matched := s.endpointIDToPolicyIDs.get e
  { key := e
    endpoint := alookup e s.endpoints
    computedData := ((alookup e s.endpointComputedData).getD []).map (fun kv => kv.2)
    tiers := s.policySorter.tiers.filterMap fun t =>
      let pols := t.orderedPolicies.filter (fun kv => decide (kv.1 ∈ matched))
      if pols.isEmpty then none
      else some { t with orderedPolicies := pols } }

/-- `Flush()`: before the in-sync signal, emit nothing and keep the dirty
set; after it, emit one snapshot per dirty endpoint and clear the dirty
set. -/
def PRState.flush (s : PRState) : List EndpointUpdate × PRState :=
  if s.inSync then
    (s.dirtyEndpoints.reverse.map s.computeEndpointUpdate, { s with dirtyEndpoints := [] })
  else ([], s)

/-- The inbound events a driver can feed the resolver between flushes
(match events and resource/computed-data updates; the sync signal and
`Flush` are modelled separately). -/
inductive PREvent where
  | policyUpdate (k : PolicyKey) (v : Option PolicyMetadata)
  | endpointUpdate (k : EndpointKey) (v : Option Endpoint)
  | policyMatch (p : PolicyKey) (e : EndpointKey)
  | policyMatchStopped (p : PolicyKey) (e : EndpointKey)
  | computedDataUpdate (e : EndpointKey) (kind : CDKind) (v : Option CDValue)

/-- Apply one inbound event. -/
def PRState.applyEvent (s : PRState) : PREvent → PRState
  | .policyUpdate k v => s.onPolicyUpdate k v
  | .endpointUpdate k v => s.onEndpointUpdate k v
  | .policyMatch p e => s.onPolicyMatch p e
  | .policyMatchStopped p e => s.onPolicyMatchStopped p e
  | .computedDataUpdate e kind v => s.onEndpointComputedDataUpdate e kind v

/-- Apply a sequence of inbound events, serially (single-writer
discipline, §5). -/
def PRState.applyEvents (s : PRState) (evs : List PREvent) : PRState :=
  evs.foldl PRState.applyEvent s

/-! ## Active Rules Calculator

Modelled from the spec (§4.1) and the ARC unit test file: the ARC tracks
policy selectors and independently registered "computed selectors",
evaluates every endpoint update against them, and reports only the match
edges that changed through the `PolicyMatchListener` events.  The
external Selector Index collaborator is a parameter
(`evalSel : selector → labels → Bool`), per §6 it is out of scope.  The
`RuleScanner` active/inactive dispatch is orthogonal to every claim and
elided. -/

/-- A selector expression (opaque to the ARC, evaluated by the external
Selector Index). -/
abbrev Selector := String

/-- The label set of an endpoint. -/
abbrev Labels := List (String × String)

/-- An event delivered to registered `PolicyMatchListener`s. -/
inductive ARCEvent where
  | policyMatch (p : PolicyKey) (e : EndpointKey)
  | policyMatchStopped (p : PolicyKey) (e : EndpointKey)
  | csMatch (sel : Selector) (e : EndpointKey)
  | csMatchStopped (sel : Selector) (e : EndpointKey)
deriving DecidableEq, Repr

/-- Whether an event is one of the two policy-match callbacks. -/
def ARCEvent.isPolicyEvent : ARCEvent → Bool
  | .policyMatch _ _ => true
  | .policyMatchStopped _ _ => true
  | _ => false

/-- The computed selector an event is about, if it is a computed-selector
event. -/
def ARCEvent.csSelector : ARCEvent → Option Selector
  | .csMatch sel _ => some sel
  | .csMatchStopped sel _ => some sel
  | _ => none

/-- The ARC state. -/
structure ARCState where
  endpoints : List (EndpointKey × Endpoint)
  policySelectors : List (PolicyKey × Selector)
  extraSelectors : List Selector
  policyIDToEndpointKeys : MultiDict PolicyKey EndpointKey
  endpointIDToPolicyIDs : MultiDict EndpointKey PolicyKey
  csMatches : MultiDict Selector EndpointKey

/-- `NewActiveRulesCalculator()`: everything empty. -/
def newActiveRulesCalculator : ARCState :=
  { endpoints := []
    policySelectors := []
    extraSelectors := []
    policyIDToEndpointKeys := MultiDict.empty
    endpointIDToPolicyIDs := MultiDict.empty
    csMatches := MultiDict.empty }

/-- Modelled from the spec: `AddExtraComputedSelector(expr)` "registers a
selector string to be evaluated against every endpoint, independent of
any policy.  Idempotent if already registered.  Immediately evaluates all
currently-known endpoints and fires `OnComputedSelectorMatch` for any
that already satisfy it." -/
def ARCState.addExtraComputedSelector (evalSel : Selector → Labels → Bool) (s : ARCState)
    (sel : Selector) : List ARCEvent × ARCState :=
  if sel ∈ s.extraSelectors then ([], s)
  else
    let matching := s.endpoints.filter (fun kv => evalSel sel kv.2.labels)
    ( matching.map (fun kv => ARCEvent.csMatch sel kv.1)
    , { s with
        extraSelectors := sel :: s.extraSelectors
        csMatches := matching.foldl (fun d kv => d.add sel kv.1) s.csMatches } )

/-- Modelled from the spec: `RemoveExtraComputedSelector(expr)` "fires
`OnComputedSelectorMatchStopped` for every endpoint currently matching
it, then stops tracking it; subsequent endpoint updates are not evaluated
against it." -/
def ARCState.removeExtraComputedSelector (s : ARCState) (sel : Selector) :
    List ARCEvent × ARCState :=
  ( (s.csMatches.get sel).map (ARCEvent.csMatchStopped sel)
  , { s with
      extraSelectors := s.extraSelectors.filter (fun x => !decide (x = sel))
      csMatches := ⟨aremoveKey sel s.csMatches.entries⟩ } )

/-- Re-evaluate one computed selector against an endpoint's new label set
(`none` on deletion): only a flipped match state fires an event. -/
def csStep (evalSel : Selector → Labels → Bool) (k : EndpointKey) (newLabels : Option Labels)
    (acc : List ARCEvent × MultiDict Selector EndpointKey) (sel : Selector) :
    List ARCEvent × MultiDict Selector EndpointKey :=
  let nw := match newLabels with
    | some l => evalSel sel l
    | none => false
  if nw then
    if k ∈ acc.2.get sel then acc
    else (acc.1 ++ [ARCEvent.csMatch sel k], acc.2.add sel k)
  else
    if k ∈ acc.2.get sel then (acc.1 ++ [ARCEvent.csMatchStopped sel k], acc.2.remove sel k)
    else acc

/-- Re-evaluate one tracked policy selector against an endpoint's new
label set: a flipped match state fires the policy event and updates both
policy-match indices. -/
def polStep (evalSel : Selector → Labels → Bool) (k : EndpointKey) (newLabels : Option Labels)
    (acc : List ARCEvent × MultiDict PolicyKey EndpointKey × MultiDict EndpointKey PolicyKey)
    (ps : PolicyKey × Selector) :
    List ARCEvent × MultiDict PolicyKey EndpointKey × MultiDict EndpointKey PolicyKey :=
  let nw := match newLabels with
    | some l => evalSel ps.2 l
    | none => false
  if nw then
    if k ∈ acc.2.1.get ps.1 then acc
    else (acc.1 ++ [ARCEvent.policyMatch ps.1 k], acc.2.1.add ps.1 k, acc.2.2.add k ps.1)
  else
    if k ∈ acc.2.1.get ps.1 then
      (acc.1 ++ [ARCEvent.policyMatchStopped ps.1 k], acc.2.1.remove ps.1 k, acc.2.2.remove k ps.1)
    else acc

/-- Modelled from the spec: `OnUpdate` for an endpoint "(re-)evaluates
the endpoint's label set against every tracked selector (policy-derived
and computed); any selector whose match state flips for this endpoint
fires the corresponding match/stopped event.  On delete, every selector
currently matching this endpoint fires its stopped event and the
endpoint is forgotten." -/
def ARCState.onEndpointUpdate (evalSel : Selector → Labels → Bool) (s : ARCState)
    (k : EndpointKey) (v : Option Endpoint) : List ARCEvent × ARCState :=
  let newLabels := v.map Endpoint.labels
  let pres := s.policySelectors.foldl (polStep evalSel k newLabels)
    ([], s.policyIDToEndpointKeys, s.endpointIDToPolicyIDs)
  let cres := s.extraSelectors.foldl (csStep evalSel k newLabels) ([], s.csMatches)
  ( pres.1 ++ cres.1
  , { s with
      endpoints :=
        match v with
        | some w => aset k w s.endpoints
        | none => aremoveKey k s.endpoints
      policyIDToEndpointKeys := pres.2.1
      endpointIDToPolicyIDs := pres.2.2
      csMatches := cres.2 } )

/-- Apply a sequence of endpoint add/update/delete events to the ARC,
accumulating the emitted listener events. -/
def ARCState.applyEndpointUpdates (evalSel : Selector → Labels → Bool) (s : ARCState) :
    List (EndpointKey × Option Endpoint) → List ARCEvent × ARCState
  | [] => ([], s)
  | (k, v) :: rest =>
    let r := s.onEndpointUpdate evalSel k v
    let r' := r.2.applyEndpointUpdates evalSel rest
    (r.1 ++ r'.1, r'.2)

/-! ## Helper lemmas -/

theorem mem_listInsert_self [DecidableEq α] (x : α) (s : List α) : x ∈ listInsert x s := by
  unfold listInsert
  by_cases h : x ∈ s
  · simp [h]
  · simp [h]

/-- The snapshot computed for a dirty endpoint is keyed by that
endpoint. -/
theorem computeEndpointUpdate_key (s : PRState) (e : EndpointKey) :
    (s.computeEndpointUpdate e).key = e := rfl

/-- When an endpoint matches no policy at all, its flushed tier list is
empty (tiers with zero matches are omitted, not emitted empty). -/
theorem computeEndpointUpdate_tiers_nil (s : PRState) (e : EndpointKey)
    (h : s.endpointIDToPolicyIDs.get e = []) :
    (s.computeEndpointUpdate e).tiers = [] := by
  unfold PRState.computeEndpointUpdate
  simp only [h]
  apply List.filterMap_eq_nil_iff.2
  intro t _
  simp

/-! ## C4: a nil computed-data update for an absent kind is a no-op -/

/-- C4: for every endpoint key `e` and computed-data kind `k` such that
`e` currently has no computed-data entry for kind `k`, calling
`OnEndpointComputedDataUpdate(e, k, nil)` is a no-op: it does not add `e`
to the dirty set and leaves all resolver state unchanged. -/
theorem computedData_nil_absent_noop (s : PRState) (e : EndpointKey) (kind : CDKind)
    (h : ∀ inner, alookup e s.endpointComputedData = some inner → alookup kind inner = none) :
    s.onEndpointComputedDataUpdate e kind none = s := by
  rcases hl : alookup e s.endpointComputedData with _ | inner
  · simp [PRState.onEndpointComputedDataUpdate, hl]
  · have hk := h inner hl
    simp [PRState.onEndpointComputedDataUpdate, hl, hk]

theorem computedData_nil_absent_noop_witness :
    (∀ inner, alookup (⟨"h", "o", "w", "ep"⟩ : EndpointKey)
        (newPolicyResolver.endpointComputedData) = some inner →
        alookup "kindA" inner = none) ∧
    newPolicyResolver.onEndpointComputedDataUpdate ⟨"h", "o", "w", "ep"⟩ "kindA" none =
      newPolicyResolver :=
  ⟨by intro inner h; simp [newPolicyResolver, alookup] at h,
   computedData_nil_absent_noop newPolicyResolver ⟨"h", "o", "w", "ep"⟩ "kindA"
     (by intro inner h; simp [newPolicyResolver, alookup] at h)⟩

/-! ## C5: endpoint deletion cascades -/

/-- C5: for every endpoint `e` that currently has computed-data entries,
processing `OnUpdate` for `e` with a nil value removes `e`'s entry from
the computed-data map entirely, drops `e` from the endpoint→policy index,
and marks `e` dirty one final time. -/
theorem endpoint_delete_cascades (s : PRState) (e : EndpointKey)
    (h : (alookup e s.endpointComputedData).isSome = true) :
    alookup e (s.onEndpointUpdate e none).endpointComputedData = none ∧
    (s.onEndpointUpdate e none).endpointIDToPolicyIDs.containsKey e = false ∧
    e ∈ (s.onEndpointUpdate e none).dirtyEndpoints := by
  refine ⟨?_, ?_, ?_⟩
  · simp [PRState.onEndpointUpdate, alookup_aremoveKey_self]
  · simp [PRState.onEndpointUpdate, MultiDict.containsKey, alookup_aremoveKey_self]
  · simp only [PRState.onEndpointUpdate]
    exact mem_listInsert_self e s.dirtyEndpoints

theorem endpoint_delete_cascades_witness :
    ((alookup (⟨"h", "o", "w", "ep"⟩ : EndpointKey)
       ({ newPolicyResolver with
          endpointComputedData :=
            [(⟨"h", "o", "w", "ep"⟩, [("kindA", "hello")])] } : PRState).endpointComputedData).isSome
        = true) ∧
    alookup (⟨"h", "o", "w", "ep"⟩ : EndpointKey)
      (({ newPolicyResolver with
          endpointComputedData :=
            [(⟨"h", "o", "w", "ep"⟩, [("kindA", "hello")])] } : PRState).onEndpointUpdate
        ⟨"h", "o", "w", "ep"⟩ none).endpointComputedData = none :=
  ⟨by decide,
   (endpoint_delete_cascades
      { newPolicyResolver with
        endpointComputedData := [(⟨"h", "o", "w", "ep"⟩, [("kindA", "hello")])] }
      ⟨"h", "o", "w", "ep"⟩ (by decide)).1⟩

/-! ## C10: the match indices never retain a key mapped to an empty set -/

/-- Removing the key wholesale keeps a `MultiDict` well-formed. -/
theorem MultiDict.wf_removeKey [DecidableEq κ] (d : MultiDict κ ν) (k : κ) (h : d.WF) :
    (⟨aremoveKey k d.entries⟩ : MultiDict κ ν).WF := by
  intro kv hkv
  exact h kv (mem_aremoveKey k d.entries kv hkv)

/-- A fold of pair-removals keeps a `MultiDict` well-formed. -/
theorem MultiDict.wf_foldl_remove [DecidableEq κ] [DecidableEq ν] (k : ν) :
    ∀ (l : List κ) (d : MultiDict κ ν), d.WF →
      (l.foldl (fun d p => d.remove p k) d).WF := by
  intro l
  induction l with
  | nil => intro d h; exact h
  | cons p rest ih =>
    intro d h
    exact ih (d.remove p k) (MultiDict.wf_remove d p k h)

/-- Both match indices are well-formed: no key maps to an empty set. -/
def PRState.IndicesWF (s : PRState) : Prop :=
  s.policyIDToEndpointIDs.WF ∧ s.endpointIDToPolicyIDs.WF

theorem indicesWF_applyEvent (s : PRState) (ev : PREvent) (h : s.IndicesWF) :
    (s.applyEvent ev).IndicesWF := by
  obtain ⟨h1, h2⟩ := h
  cases ev with
  | policyUpdate k v =>
    cases v <;> exact ⟨h1, h2⟩
  | endpointUpdate k v =>
    cases v with
    | some w => exact ⟨h1, h2⟩
    | none =>
      exact ⟨MultiDict.wf_foldl_remove k _ _ h1, MultiDict.wf_removeKey _ k h2⟩
  | policyMatch p e =>
    exact ⟨MultiDict.wf_add _ p e h1, MultiDict.wf_add _ e p h2⟩
  | policyMatchStopped p e =>
    exact ⟨MultiDict.wf_remove _ p e h1, MultiDict.wf_remove _ e p h2⟩
  | computedDataUpdate e kind v =>
    cases v with
    | some val => exact ⟨h1, h2⟩
    | none =>
      simp only [PRState.applyEvent, PRState.onEndpointComputedDataUpdate]
      rcases alookup e s.endpointComputedData with _ | inner
      · exact ⟨h1, h2⟩
      · by_cases hk : (alookup kind inner).isSome
        · simp only [hk, if_pos]
          exact ⟨h1, h2⟩
        · simp only [hk, if_neg, Bool.not_eq_true]
          exact ⟨h1, h2⟩

/-- C10: invariant of the bidirectional match indices kept by every
operation — neither index ever retains a key mapped to an empty set; in
particular, when `OnPolicyMatchStopped` removes the last endpoint matched
by a policy the policy key itself is removed from `policyIDToEndpointIDs`
(`ContainsKey` becomes false), and when it removes the last policy
matched by an endpoint the endpoint key itself is removed from
`endpointIDToPolicyIDs`. -/
theorem match_indices_never_empty (s : PRState) (evs : List PREvent)
    (p : PolicyKey) (e : EndpointKey) (h : s.IndicesWF)
    (hlastE : s.policyIDToEndpointIDs.get p = [e])
    (hlastP : s.endpointIDToPolicyIDs.get e = [p]) :
    (s.applyEvents evs).IndicesWF ∧
    newPolicyResolver.IndicesWF ∧
    (s.onPolicyMatchStopped p e).policyIDToEndpointIDs.containsKey p = false ∧
    (s.onPolicyMatchStopped p e).endpointIDToPolicyIDs.containsKey e = false := by
  refine ⟨?_, ⟨MultiDict.wf_empty, MultiDict.wf_empty⟩, ?_, ?_⟩
  · clear hlastE hlastP
    induction evs generalizing s with
    | nil => exact h
    | cons ev rest ih =>
      exact ih (s.applyEvent ev) (indicesWF_applyEvent s ev h)
  · exact MultiDict.containsKey_remove_last _ p e hlastE
  · exact MultiDict.containsKey_remove_last _ e p hlastP

theorem match_indices_never_empty_witness :
    (({ newPolicyResolver with
        policyIDToEndpointIDs := ⟨[(⟨"p1", "", "np"⟩, [⟨"h", "o", "w", "ep"⟩])]⟩
        endpointIDToPolicyIDs := ⟨[(⟨"h", "o", "w", "ep"⟩, [⟨"p1", "", "np"⟩])]⟩ } :
          PRState).onPolicyMatchStopped ⟨"p1", "", "np"⟩
          ⟨"h", "o", "w", "ep"⟩).policyIDToEndpointIDs.containsKey ⟨"p1", "", "np"⟩ = false :=
  (match_indices_never_empty
    { newPolicyResolver with
      policyIDToEndpointIDs := ⟨[(⟨"p1", "", "np"⟩, [⟨"h", "o", "w", "ep"⟩])]⟩
      endpointIDToPolicyIDs := ⟨[(⟨"h", "o", "w", "ep"⟩, [⟨"p1", "", "np"⟩])]⟩ }
    [] ⟨"p1", "", "np"⟩ ⟨"h", "o", "w", "ep"⟩
    (by constructor <;> (intro kv hkv; simp only [List.mem_singleton] at hkv; subst hkv; simp))
    (by simp [MultiDict.get, alookup])
    (by simp [MultiDict.get, alookup])).2.2.1

/-! ## C9: the Policy Sorter's total order -/

/-- Two sorted lists that are permutations of each other are equal, given
antisymmetry of the order on the elements involved. -/
theorem sorted_perm_eq_of_antisymm {α : Type} {r : α → α → Prop} :
    ∀ {l₁ l₂ : List α}, l₁.Perm l₂ → l₁.Sorted r → l₂.Sorted r →
      (∀ a ∈ l₁, ∀ b ∈ l₁, r a b → r b a → a = b) → l₁ = l₂ := by
  intro l₁
  induction l₁ with
  | nil =>
    intro l₂ hp _ _ _
    exact hp.nil_eq
  | cons a t₁ ih =>
    intro l₂ hp hs₁ hs₂ hanti
    cases l₂ with
    | nil => exact absurd hp.symm.nil_eq (by simp)
    | cons b t₂ =>
      have hab : a = b := by
        by_cases hba : b = a
        · exact hba.symm
        · have hbmem : b ∈ a :: t₁ := hp.mem_iff.2 (List.mem_cons_self b t₂)
          have hb_t₁ : b ∈ t₁ := by
            rcases List.mem_cons.1 hbmem with h | h
            · exact absurd h hba
            · exact h
          have hrab : r a b := (List.sorted_cons.1 hs₁).1 b hb_t₁
          have hamem : a ∈ b :: t₂ := hp.mem_iff.1 (List.mem_cons_self a t₁)
          have ha_t₂ : a ∈ t₂ := by
            rcases List.mem_cons.1 hamem with h | h
            · exact absurd h.symm hba
            · exact h
          have hrba : r b a := (List.sorted_cons.1 hs₂).1 a ha_t₂
          exact hanti a (List.mem_cons_self a t₁) b hbmem hrab hrba
      subst hab
      have hp' : t₁.Perm t₂ := (List.perm_cons a).1 hp
      have heq := ih hp' (List.sorted_cons.1 hs₁).2 (List.sorted_cons.1 hs₂).2
        (fun x hx y hy hr hr' =>
          hanti x (List.mem_cons_of_mem a hx) y (List.mem_cons_of_mem a hy) hr hr')
      rw [heq]

/-- Equal sort keys force equal policy names. -/
theorem sortKey_inj_name (a b : PolKV) (h : sortKey a = sortKey b) :
    a.1.name = b.1.name := by
  unfold sortKey at h
  have h' := congrArg ofLex h
  simp only [ofLex_toLex] at h'
  exact congrArg Prod.snd h'

/-- C9: for every tier, the Policy Sorter's total order sorts primarily
by each policy's explicit numeric order when present, breaks ties — or
the absence of an explicit order — by policy name ascending, and the
resulting order is deterministic for any set of policies (with distinct
names). -/
theorem policy_sorter_order :
    (∀ (a b : PolKV) (x y : ℤ), a.2.order = some x → b.2.order = some y → x ≠ y →
        (polLE a b ↔ x < y)) ∧
    (∀ a b : PolKV, a.2.order = b.2.order → (polLE a b ↔ a.1.name ≤ b.1.name)) ∧
    (∀ a b : PolKV, a.2.order = none → (polLE a b ↔ b.2.order = none ∧
        a.1.name ≤ b.1.name)) ∧
    (∀ l : List PolKV, (sortPolicies l).Sorted polLE ∧ (sortPolicies l).Perm l) ∧
    (∀ l₁ l₂ : List PolKV, l₁.Perm l₂ →
        (∀ a ∈ l₁, ∀ b ∈ l₁, a.1.name = b.1.name → a = b) →
        sortPolicies l₁ = sortPolicies l₂) := by
  refine ⟨?_, ?_, ?_, ?_, ?_⟩
  · intro a b x y hax hby hxy
    unfold polLE sortKey
    rw [Prod.Lex.le_iff]
    simp only [hax, hby]
    constructor
    · rintro (h | ⟨h, _⟩)
      · exact WithTop.coe_lt_coe.1 h
      · exact absurd (WithTop.coe_inj.1 h) hxy
    · intro h
      exact Or.inl (WithTop.coe_lt_coe.2 h)
  · intro a b hord
    unfold polLE sortKey
    rw [Prod.Lex.le_iff]
    constructor
    · rintro (h | ⟨_, h⟩)
      · rw [hord] at h
        exact absurd h (lt_irrefl _)
      · exact h
    · intro h
      exact Or.inr ⟨by rw [hord], h⟩
  · intro a b ha
    unfold polLE sortKey
    rw [Prod.Lex.le_iff, ha]
    rcases hb : b.2.order with _ | y
    · constructor
      · rintro (h | ⟨_, h⟩)
        · simp only at h
          exact absurd h (lt_irrefl _)
        · exact ⟨rfl, h⟩
      · rintro ⟨_, h⟩
        exact Or.inr ⟨rfl, h⟩
    · constructor
      · rintro (h | ⟨h, _⟩)
        · simp only at h
          exact absurd h (WithTop.not_top_lt _)
        · simp only at h
          exact absurd h (by simp)
      · rintro ⟨h, _⟩
        exact Option.noConfusion h
  · intro l
    exact ⟨List.sorted_insertionSort polLE l, List.perm_insertionSort polLE l⟩
  · intro l₁ l₂ hp hinj
    apply sorted_perm_eq_of_antisymm
      (((List.perm_insertionSort polLE l₁).trans hp).trans
        (List.perm_insertionSort polLE l₂).symm)
      (List.sorted_insertionSort polLE l₁)
      (List.sorted_insertionSort polLE l₂)
    intro a ha b hb hab hba
    have hkey : sortKey a = sortKey b := le_antisymm hab hba
    exact hinj a ((List.mem_insertionSort polLE).1 ha)
      b ((List.mem_insertionSort polLE).1 hb) (sortKey_inj_name a b hkey)

theorem policy_sorter_order_witness :
    ((⟨⟨"a", "", "np"⟩, "default", some 1⟩ : PolKV).2.order = some 1 ∧
      (⟨⟨"b", "", "np"⟩, "default", some 2⟩ : PolKV).2.order = some 2 ∧ (1 : ℤ) ≠ 2 ∧
      polLE ⟨⟨"a", "", "np"⟩, "default", some 1⟩ ⟨⟨"b", "", "np"⟩, "default", some 2⟩) ∧
    sortPolicies [⟨⟨"b", "", "np"⟩, "default", none⟩, ⟨⟨"a", "", "np"⟩, "default", none⟩] =
      sortPolicies [⟨⟨"a", "", "np"⟩, "default", none⟩, ⟨⟨"b", "", "np"⟩, "default", none⟩] := by
  constructor
  · refine ⟨rfl, rfl, by decide, ?_⟩
    exact (policy_sorter_order.1 ⟨⟨"a", "", "np"⟩, "default", some 1⟩
      ⟨⟨"b", "", "np"⟩, "default", some 2⟩ 1 2 rfl rfl (by decide)).2 (by decide)
  · exact policy_sorter_order.2.2.2.2
      [⟨⟨"b", "", "np"⟩, "default", none⟩, ⟨⟨"a", "", "np"⟩, "default", none⟩]
      [⟨⟨"a", "", "np"⟩, "default", none⟩, ⟨⟨"b", "", "np"⟩, "default", none⟩]
      (List.Perm.swap _ _ _)
      (by
        intro a ha b hb hname
        simp only [List.mem_cons, List.not_mem_nil, or_false] at ha hb
        rcases ha with ha | ha <;> rcases hb with hb | hb <;> subst ha <;> subst hb <;>
          first
          | rfl
          | (exfalso; simp at hname))

/-! ## C3: no premature emission, no dropped dirty entries -/

/-- No inbound event changes the sync flag. -/
theorem applyEvent_inSync (s : PRState) (ev : PREvent) :
    (s.applyEvent ev).inSync = s.inSync := by
  cases ev with
  | policyUpdate k v => cases v <;> rfl
  | endpointUpdate k v => cases v <;> rfl
  | policyMatch p e => rfl
  | policyMatchStopped p e => rfl
  | computedDataUpdate e kind v =>
    cases v with
    | some val => rfl
    | none =>
      simp only [PRState.applyEvent, PRState.onEndpointComputedDataUpdate]
      rcases alookup e s.endpointComputedData with _ | inner
      · rfl
      · by_cases hk : (alookup kind inner).isSome
        · simp only [hk, if_pos]
        · simp only [hk, if_neg, Bool.not_eq_true]

theorem applyEvents_inSync (evs : List PREvent) (s : PRState) :
    (s.applyEvents evs).inSync = s.inSync := by
  induction evs generalizing s with
  | nil => rfl
  | cons ev rest ih =>
    simp only [PRState.applyEvents, List.foldl_cons] at ih ⊢
    rw [ih (s.applyEvent ev), applyEvent_inSync]

/-- C3: for every sequence of match events and resource updates applied
before `OnDatamodelStatus(InSync)`, `Flush()` delivers zero updates and
drops nothing (the state, dirty set included, is untouched); once the
in-sync signal arrives, the next `Flush()` delivers exactly the
accumulated dirty endpoints. -/
theorem no_premature_emission (evs : List PREvent) :
    (newPolicyResolver.applyEvents evs).flush =
      ([], newPolicyResolver.applyEvents evs) ∧
    (((newPolicyResolver.applyEvents evs).onDatamodelStatus SyncStatus.inSync).flush.1.map
        EndpointUpdate.key) =
      (newPolicyResolver.applyEvents evs).dirtyEndpoints.reverse ∧
    (∀ e : EndpointKey,
      e ∈ (((newPolicyResolver.applyEvents evs).onDatamodelStatus SyncStatus.inSync).flush.1.map
            EndpointUpdate.key) ↔
        e ∈ (newPolicyResolver.applyEvents evs).dirtyEndpoints) := by
  have hsync : (newPolicyResolver.applyEvents evs).inSync = false :=
    applyEvents_inSync evs newPolicyResolver
  have hkeys : (((newPolicyResolver.applyEvents evs).onDatamodelStatus
      SyncStatus.inSync).flush.1.map EndpointUpdate.key) =
      (newPolicyResolver.applyEvents evs).dirtyEndpoints.reverse := by
    simp only [PRState.onDatamodelStatus, if_pos, PRState.flush, List.map_map]
    simp [Function.comp_def, computeEndpointUpdate_key]
  refine ⟨?_, hkeys, ?_⟩
  · simp [PRState.flush, hsync]
  · intro e
    rw [hkeys, List.mem_reverse]

/-! ## C1: idempotent match -/

/-- C1: for every policy key `p` and endpoint key `e`, starting from a
state where `p` is in `allPolicies` with a tier known to the Policy
Sorter and `e` is a known endpoint, calling `OnPolicyMatch(p, e)` twice,
receiving `OnDatamodelStatus(InSync)` and then `Flush()` delivers exactly
one update for `e`, whose tier list contains `p` exactly once, inside
`p`'s tier, with `valid = true`. -/
theorem idempotent_match (p : PolicyKey) (e : EndpointKey) (m : PolicyMetadata) (w : Endpoint) :
    (({ newPolicyResolver with
          allPolicies := [(p, m)]
          endpoints := [(e, w)]
          policySorter := ⟨[{ name := m.tier, valid := true, orderedPolicies := [] }]⟩ } :
        PRState).onPolicyMatch p e |>.onPolicyMatch p e
        |>.onDatamodelStatus SyncStatus.inSync |>.flush.1) =
      [{ key := e, endpoint := some w, computedData := [],
         tiers := [{ name := m.tier, valid := true, orderedPolicies := [(p, m)] }] }] := by
  simp [newPolicyResolver, PRState.onPolicyMatch, PRState.onDatamodelStatus, PRState.flush,
    PRState.computeEndpointUpdate, MultiDict.add, MultiDict.get, MultiDict.empty, alookup, aset,
    listInsert, SorterState.updatePolicy, SorterState.clearPolicy, SorterState.insertPolicy,
    PolicyMetadata.zero, aremoveKey]

/-! ## C2: idempotent unmatch -/

/-- The unmatch scenario of the unit test: seed the sorter with the
policy, match it to an endpoint, then deliver the match-stopped event
twice (the second one redundant). -/
def unmatchScenario (p : PolicyKey) (e : EndpointKey) (m : PolicyMetadata) : PRState :=
  ({ newPolicyResolver with
      policySorter := SorterState.empty.updatePolicy p (some m)
      inSync := true } : PRState).onPolicyMatch p e
    |>.onPolicyMatchStopped p e
    |>.onPolicyMatchStopped p e

/-- C2: after `OnPolicyMatch(p, e)`, calling `OnPolicyMatchStopped(p, e)`
twice — the second call redundant — does not panic (it is a total
function), leaves both match indices without the pair, marks `e` dirty,
and a subsequent `Flush()` delivers exactly one update for `e` in which
`p` is absent from every tier; a match-stopped event for a pair that was
never matched is likewise a safe no-op on the indices. -/
theorem idempotent_unmatch (p : PolicyKey) (e : EndpointKey) (m : PolicyMetadata)
    (s : PRState) (hwf : s.policyIDToEndpointIDs.WF) (hwf2 : s.endpointIDToPolicyIDs.WF)
    (h1 : e ∉ s.policyIDToEndpointIDs.get p) (h2 : p ∉ s.endpointIDToPolicyIDs.get e) :
    ((s.onPolicyMatchStopped p e).policyIDToEndpointIDs = s.policyIDToEndpointIDs ∧
      (s.onPolicyMatchStopped p e).endpointIDToPolicyIDs = s.endpointIDToPolicyIDs ∧
      e ∈ (s.onPolicyMatchStopped p e).dirtyEndpoints) ∧
    ((unmatchScenario p e m).policyIDToEndpointIDs.containsKey p = false ∧
      (unmatchScenario p e m).endpointIDToPolicyIDs.containsKey e = false ∧
      e ∈ (unmatchScenario p e m).dirtyEndpoints ∧
      (unmatchScenario p e m).flush.1 =
        [{ key := e, endpoint := none, computedData := [], tiers := [] }]) := by
  have hidx1 : (unmatchScenario p e m).policyIDToEndpointIDs = ⟨[]⟩ := by
    simp [unmatchScenario, PRState.onPolicyMatch, PRState.onPolicyMatchStopped, MultiDict.add,
      MultiDict.remove, MultiDict.get, MultiDict.empty, alookup, aset, aremoveKey,
      newPolicyResolver]
  have hidx2 : (unmatchScenario p e m).endpointIDToPolicyIDs = ⟨[]⟩ := by
    simp [unmatchScenario, PRState.onPolicyMatch, PRState.onPolicyMatchStopped, MultiDict.add,
      MultiDict.remove, MultiDict.get, MultiDict.empty, alookup, aset, aremoveKey,
      newPolicyResolver]
  have hdirty : (unmatchScenario p e m).dirtyEndpoints = [e] := by
    simp [unmatchScenario, PRState.onPolicyMatch, PRState.onPolicyMatchStopped, listInsert,
      newPolicyResolver]
  have hsync : (unmatchScenario p e m).inSync = true := rfl
  have hcompute : (unmatchScenario p e m).computeEndpointUpdate e =
      { key := e, endpoint := none, computedData := [], tiers := [] } := by
    have hmatched : (unmatchScenario p e m).endpointIDToPolicyIDs.get e = [] := by
      rw [hidx2]; rfl
    simp only [PRState.computeEndpointUpdate, hmatched, EndpointUpdate.mk.injEq]
    simp [List.filterMap_eq_nil_iff, unmatchScenario, newPolicyResolver, PRState.onPolicyMatch,
      PRState.onPolicyMatchStopped, alookup]
  refine ⟨⟨?_, ?_, ?_⟩, ?_, ?_, ?_, ?_⟩
  · show s.policyIDToEndpointIDs.remove p e = s.policyIDToEndpointIDs
    exact MultiDict.remove_absent _ p e hwf h1
  · show s.endpointIDToPolicyIDs.remove e p = s.endpointIDToPolicyIDs
    exact MultiDict.remove_absent _ e p hwf2 h2
  · exact mem_listInsert_self e _
  · rw [hidx1]; rfl
  · rw [hidx2]; rfl
  · rw [hdirty]; exact List.mem_singleton.2 rfl
  · simp [PRState.flush, hsync, hdirty, hcompute]

theorem idempotent_unmatch_witness :
    (unmatchScenario ⟨"p1", "", "np"⟩ ⟨"h", "o", "w", "ep"⟩
        ⟨"default", none⟩).policyIDToEndpointIDs.containsKey ⟨"p1", "", "np"⟩ = false ∧
    (unmatchScenario ⟨"p1", "", "np"⟩ ⟨"h", "o", "w", "ep"⟩ ⟨"default", none⟩).flush.1 =
      [{ key := ⟨"h", "o", "w", "ep"⟩, endpoint := none, computedData := [], tiers := [] }] :=
  have h := idempotent_unmatch ⟨"p1", "", "np"⟩ ⟨"h", "o", "w", "ep"⟩ ⟨"default", none⟩
    newPolicyResolver
    (by intro kv hkv; simp [newPolicyResolver, MultiDict.empty] at hkv)
    (by intro kv hkv; simp [newPolicyResolver, MultiDict.empty] at hkv)
    (by simp [newPolicyResolver, MultiDict.empty, MultiDict.get, alookup])
    (by simp [newPolicyResolver, MultiDict.empty, MultiDict.get, alookup])
  ⟨h.2.1, h.2.2.2.2⟩

/-! ## C8: non-nil computed-data upserts appear in the next flush -/

/-- The two-kinds scenario of the unit test: a matched endpoint with two
computed-data kinds set before `Flush()`. -/
def upsertScenario (p : PolicyKey) (e : EndpointKey) (m : PolicyMetadata) (w : Endpoint)
    (kA kB : CDKind) (a b : CDValue) : PRState :=
  ({ newPolicyResolver with
      allPolicies := [(p, m)]
      endpoints := [(e, w)]
      policySorter := ⟨[{ name := m.tier, valid := true, orderedPolicies := [] }]⟩
      inSync := true } : PRState).onPolicyMatch p e
    |>.onEndpointComputedDataUpdate e kA (some a)
    |>.onEndpointComputedDataUpdate e kB (some b)

/-- C8: calling `OnEndpointComputedDataUpdate(e, k, v)` with non-nil `v`
upserts kind `k`'s entry and marks `e` dirty, and the next `Flush()`
delivers an update for `e` whose computed-data slice contains the value
supplied for every kind currently set (with two kinds set, both values
appear). -/
theorem computed_data_upsert (s : PRState) (e' : EndpointKey) (kind : CDKind) (v : CDValue)
    (p : PolicyKey) (e : EndpointKey) (m : PolicyMetadata) (w : Endpoint)
    (kA kB : CDKind) (a b : CDValue) (hAB : kA ≠ kB) :
    (alookup kind
        ((alookup e'
          (s.onEndpointComputedDataUpdate e' kind (some v)).endpointComputedData).getD []) =
        some v ∧
      e' ∈ (s.onEndpointComputedDataUpdate e' kind (some v)).dirtyEndpoints) ∧
    (upsertScenario p e m w kA kB a b).flush.1 =
      [{ key := e, endpoint := some w, computedData := [a, b],
         tiers := [{ name := m.tier, valid := true, orderedPolicies := [(p, m)] }] }] := by
  have hBA : ¬ kB = kA := fun hh => hAB hh.symm
  constructor
  · constructor
    · show alookup kind ((alookup e' (aset e' _ s.endpointComputedData)).getD []) = some v
      rw [alookup_aset_self]
      simp [alookup_aset_self]
    · exact mem_listInsert_self e' _
  · simp [upsertScenario, newPolicyResolver, PRState.onPolicyMatch,
      PRState.onEndpointComputedDataUpdate, PRState.flush, PRState.computeEndpointUpdate,
      MultiDict.add, MultiDict.get, MultiDict.empty, alookup, aset, listInsert,
      SorterState.updatePolicy, SorterState.clearPolicy, SorterState.insertPolicy,
      PolicyMetadata.zero, aremoveKey, hBA]

theorem computed_data_upsert_witness :
    ("kindA" : CDKind) ≠ "kindB" ∧
    (upsertScenario ⟨"p1", "", "np"⟩ ⟨"h", "o", "w", "ep"⟩ ⟨"default", none⟩ ⟨"we1", []⟩
        "kindA" "kindB" "a" "b").flush.1 =
      [{ key := ⟨"h", "o", "w", "ep"⟩, endpoint := some ⟨"we1", []⟩, computedData := ["a", "b"],
         tiers := [{ name := "default", valid := true,
                     orderedPolicies := [(⟨"p1", "", "np"⟩, ⟨"default", none⟩)] }] }] :=
  ⟨by decide,
   (computed_data_upsert newPolicyResolver ⟨"h", "o", "w", "ep"⟩ "kindA" "x"
      ⟨"p1", "", "np"⟩ ⟨"h", "o", "w", "ep"⟩ ⟨"default", none⟩ ⟨"we1", []⟩
      "kindA" "kindB" "a" "b" (by decide)).2⟩

/-! ## ARC helper lemmas -/

/-- A computed-selector event is never one of the policy callbacks. -/
theorem csSelector_some_not_policy (ev : ARCEvent) (sel : Selector)
    (h : ev.csSelector = some sel) : ev.isPolicyEvent = false := by
  cases ev <;> simp [ARCEvent.csSelector, ARCEvent.isPolicyEvent] at h ⊢

/-- Each computed-selector step only appends events about the selector it
processes. -/
theorem csStep_events (evalSel : Selector → Labels → Bool) (k : EndpointKey)
    (nl : Option Labels) (acc : List ARCEvent × MultiDict Selector EndpointKey)
    (sel : Selector) (ev : ARCEvent) (h : ev ∈ (csStep evalSel k nl acc sel).1) :
    ev ∈ acc.1 ∨ ev.csSelector = some sel := by
  unfold csStep at h
  rcases nl with _ | l
  · simp only at h
    by_cases hm : k ∈ acc.2.get sel
    · simp only [hm, if_pos] at h
      rcases List.mem_append.1 h with h' | h'
      · exact Or.inl h'
      · simp only [List.mem_singleton] at h'
        subst h'
        exact Or.inr rfl
    · simp only [hm, if_neg, not_false_iff] at h
      exact Or.inl h
  · simp only at h
    by_cases he : evalSel sel l
    · simp only [he, if_pos] at h
      by_cases hm : k ∈ acc.2.get sel
      · simp only [hm, if_pos] at h
        exact Or.inl h
      · simp only [hm, if_neg, not_false_iff] at h
        rcases List.mem_append.1 h with h' | h'
        · exact Or.inl h'
        · simp only [List.mem_singleton] at h'
          subst h'
          exact Or.inr rfl
    · simp only [he, if_neg, Bool.not_eq_true] at h
      by_cases hm : k ∈ acc.2.get sel
      · simp only [hm, if_pos] at h
        rcases List.mem_append.1 h with h' | h'
        · exact Or.inl h'
        · simp only [List.mem_singleton] at h'
          subst h'
          exact Or.inr rfl
      · simp only [hm, if_neg, not_false_iff] at h
        exact Or.inl h

/-- Folding the computed-selector step over a selector list only appends
events about selectors in the list. -/
theorem csFold_events (evalSel : Selector → Labels → Bool) (k : EndpointKey)
    (nl : Option Labels) :
    ∀ (sels : List Selector) (acc : List ARCEvent × MultiDict Selector EndpointKey),
      ∀ ev ∈ (sels.foldl (csStep evalSel k nl) acc).1,
        ev ∈ acc.1 ∨ ∃ sel ∈ sels, ev.csSelector = some sel := by
  intro sels
  induction sels with
  | nil =>
    intro acc ev h
    exact Or.inl h
  | cons sel rest ih =>
    intro acc ev h
    simp only [List.foldl_cons] at h
    rcases ih (csStep evalSel k nl acc sel) ev h with h' | ⟨x, hx, hsel⟩
    · rcases csStep_events evalSel k nl acc sel ev h' with h'' | h''
      · exact Or.inl h''
      · exact Or.inr ⟨sel, List.mem_cons_self sel rest, h''⟩
    · exact Or.inr ⟨x, List.mem_cons_of_mem sel hx, hsel⟩

/-- Each policy-selector step only appends policy events. -/
theorem polStep_events (evalSel : Selector → Labels → Bool) (k : EndpointKey)
    (nl : Option Labels)
    (acc : List ARCEvent × MultiDict PolicyKey EndpointKey × MultiDict EndpointKey PolicyKey)
    (ps : PolicyKey × Selector) (ev : ARCEvent)
    (h : ev ∈ (polStep evalSel k nl acc ps).1) :
    ev ∈ acc.1 ∨ ev.csSelector = none := by
  unfold polStep at h
  rcases nl with _ | l
  · simp only at h
    by_cases hm : k ∈ acc.2.1.get ps.1
    · simp only [hm, if_pos] at h
      rcases List.mem_append.1 h with h' | h'
      · exact Or.inl h'
      · simp only [List.mem_singleton] at h'
        subst h'
        exact Or.inr rfl
    · simp only [hm, if_neg, not_false_iff] at h
      exact Or.inl h
  · simp only at h
    by_cases he : evalSel ps.2 l
    · simp only [he, if_pos] at h
      by_cases hm : k ∈ acc.2.1.get ps.1
      · simp only [hm, if_pos] at h
        exact Or.inl h
      · simp only [hm, if_neg, not_false_iff] at h
        rcases List.mem_append.1 h with h' | h'
        · exact Or.inl h'
        · simp only [List.mem_singleton] at h'
          subst h'
          exact Or.inr rfl
    · simp only [he, if_neg, Bool.not_eq_true] at h
      by_cases hm : k ∈ acc.2.1.get ps.1
      · simp only [hm, if_pos] at h
        rcases List.mem_append.1 h with h' | h'
        · exact Or.inl h'
        · simp only [List.mem_singleton] at h'
          subst h'
          exact Or.inr rfl
      · simp only [hm, if_neg, not_false_iff] at h
        exact Or.inl h

/-- Folding the policy-selector step only appends policy events. -/
theorem polFold_events (evalSel : Selector → Labels → Bool) (k : EndpointKey)
    (nl : Option Labels) :
    ∀ (sels : List (PolicyKey × Selector))
      (acc : List ARCEvent × MultiDict PolicyKey EndpointKey × MultiDict EndpointKey PolicyKey),
      ∀ ev ∈ (sels.foldl (polStep evalSel k nl) acc).1,
        ev ∈ acc.1 ∨ ev.csSelector = none := by
  intro sels
  induction sels with
  | nil =>
    intro acc ev h
    exact Or.inl h
  | cons ps rest ih =>
    intro acc ev h
    simp only [List.foldl_cons] at h
    rcases ih (polStep evalSel k nl acc ps) ev h with h' | h'
    · rcases polStep_events evalSel k nl acc ps ev h' with h'' | h''
      · exact Or.inl h''
      · exact Or.inr h''
    · exact Or.inr h'

/-- Any computed-selector event emitted by an endpoint update is about a
currently tracked computed selector. -/
theorem onEndpointUpdate_events (evalSel : Selector → Labels → Bool) (s : ARCState)
    (k : EndpointKey) (v : Option Endpoint) (ev : ARCEvent)
    (h : ev ∈ (s.onEndpointUpdate evalSel k v).1) :
    ev.csSelector = none ∨ ∃ sel ∈ s.extraSelectors, ev.csSelector = some sel := by
  simp only [ARCState.onEndpointUpdate] at h
  rcases List.mem_append.1 h with h' | h'
  · rcases polFold_events evalSel k (v.map Endpoint.labels) s.policySelectors
        ([], s.policyIDToEndpointKeys, s.endpointIDToPolicyIDs) ev h' with h'' | h''
    · simp at h''
    · exact Or.inl h''
  · rcases csFold_events evalSel k (v.map Endpoint.labels) s.extraSelectors
        ([], s.csMatches) ev h' with h'' | h''
    · simp at h''
    · exact Or.inr h''

/-- Endpoint updates never change the set of tracked computed
selectors. -/
theorem onEndpointUpdate_extraSelectors (evalSel : Selector → Labels → Bool) (s : ARCState)
    (k : EndpointKey) (v : Option Endpoint) :
    (s.onEndpointUpdate evalSel k v).2.extraSelectors = s.extraSelectors := rfl

/-- Once a selector is no longer tracked, no sequence of endpoint updates
emits any event about it. -/
theorem applyEndpointUpdates_no_removed_sel (evalSel : Selector → Labels → Bool)
    (sel : Selector) :
    ∀ (upds : List (EndpointKey × Option Endpoint)) (s : ARCState),
      sel ∉ s.extraSelectors →
      ∀ ev ∈ (s.applyEndpointUpdates evalSel upds).1, ev.csSelector ≠ some sel := by
  intro upds
  induction upds with
  | nil =>
    intro s _ ev h
    simp [ARCState.applyEndpointUpdates] at h
  | cons kv rest ih =>
    intro s hsel ev h
    simp only [ARCState.applyEndpointUpdates, List.mem_append] at h
    rcases h with h | h
    · rcases onEndpointUpdate_events evalSel s kv.1 kv.2 ev h with h' | ⟨x, hx, hsel'⟩
      · simp [h']
      · rw [hsel']
        intro hc
        cases hc
        exact hsel hx
    · exact ih (s.onEndpointUpdate evalSel kv.1 kv.2).2
        (by rw [onEndpointUpdate_extraSelectors]; exact hsel) ev h

/-! ## C6: computed-selector isolation -/

/-- C6: invariant of the Active Rules Calculator — for every registered
computed selector and every endpoint whose labels satisfy it, the match
fires `OnComputedSelectorMatch` but fires zero `OnPolicyMatch` calls and
inserts no pair into `policyIDToEndpointKeys` or `endpointIDToPolicyIDs`;
the policy-match indices are unchanged by any computed-selector
activity. -/
theorem computed_selector_isolation (evalSel : Selector → Labels → Bool) (s : ARCState)
    (sel : Selector) (hnew : sel ∉ s.extraSelectors) (hps : s.policySelectors = []) :
    (∀ k ep, (k, ep) ∈ s.endpoints → evalSel sel ep.labels = true →
      ARCEvent.csMatch sel k ∈ (s.addExtraComputedSelector evalSel sel).1) ∧
    (∀ ev ∈ (s.addExtraComputedSelector evalSel sel).1, ev.isPolicyEvent = false) ∧
    (∀ sel', ∀ ev ∈ (s.removeExtraComputedSelector sel').1, ev.isPolicyEvent = false) ∧
    ((s.addExtraComputedSelector evalSel sel).2.policyIDToEndpointKeys =
        s.policyIDToEndpointKeys ∧
      (s.addExtraComputedSelector evalSel sel).2.endpointIDToPolicyIDs =
        s.endpointIDToPolicyIDs) ∧
    (∀ sel', (s.removeExtraComputedSelector sel').2.policyIDToEndpointKeys =
        s.policyIDToEndpointKeys ∧
      (s.removeExtraComputedSelector sel').2.endpointIDToPolicyIDs =
        s.endpointIDToPolicyIDs) ∧
    (∀ k v, (∀ ev ∈ (s.onEndpointUpdate evalSel k v).1, ev.isPolicyEvent = false) ∧
      (s.onEndpointUpdate evalSel k v).2.policyIDToEndpointKeys = s.policyIDToEndpointKeys ∧
      (s.onEndpointUpdate evalSel k v).2.endpointIDToPolicyIDs = s.endpointIDToPolicyIDs) := by
  refine ⟨?_, ?_, ?_, ?_, ?_, ?_⟩
  · intro k ep hmem heval
    simp only [ARCState.addExtraComputedSelector, hnew, if_neg, not_false_iff]
    exact List.mem_map.2 ⟨(k, ep), List.mem_filter.2 ⟨hmem, by simp [heval]⟩, rfl⟩
  · intro ev hev
    simp only [ARCState.addExtraComputedSelector, hnew, if_neg, not_false_iff] at hev
    rcases List.mem_map.1 hev with ⟨kv, _, hkv⟩
    subst hkv
    rfl
  · intro sel' ev hev
    simp only [ARCState.removeExtraComputedSelector] at hev
    rcases List.mem_map.1 hev with ⟨k, _, hk⟩
    subst hk
    rfl
  · constructor <;> simp [ARCState.addExtraComputedSelector, hnew]
  · intro sel'
    exact ⟨rfl, rfl⟩
  · intro k v
    refine ⟨?_, ?_, ?_⟩
    · intro ev hev
      simp only [ARCState.onEndpointUpdate, hps, List.foldl_nil, List.nil_append] at hev
      rcases csFold_events evalSel k (v.map Endpoint.labels) s.extraSelectors
          ([], s.csMatches) ev hev with h' | ⟨x, _, hx⟩
      · simp at h'
      · exact csSelector_some_not_policy ev x hx
    · simp [ARCState.onEndpointUpdate, hps]
    · simp [ARCState.onEndpointUpdate, hps]

theorem computed_selector_isolation_witness :
    ("has(foo)" : Selector) ∉ newActiveRulesCalculator.extraSelectors ∧
    newActiveRulesCalculator.policySelectors = [] ∧
    (({ newActiveRulesCalculator with
        endpoints := [(⟨"h", "o", "w", "ep"⟩, ⟨"we1", [("foo", "bar")]⟩)] } :
          ARCState).addExtraComputedSelector
        (fun sel lbls => sel == "has(foo)" && lbls.any (fun kv => kv.1 == "foo"))
        "has(foo)").1 =
      [ARCEvent.csMatch "has(foo)" ⟨"h", "o", "w", "ep"⟩] := by
  refine ⟨by simp [newActiveRulesCalculator], rfl, ?_⟩
  have h := computed_selector_isolation
    (fun sel lbls => sel == "has(foo)" && lbls.any (fun kv => kv.1 == "foo"))
    ({ newActiveRulesCalculator with
       endpoints := [(⟨"h", "o", "w", "ep"⟩, ⟨"we1", [("foo", "bar")]⟩)] } : ARCState)
    "has(foo)" (by simp [newActiveRulesCalculator]) rfl
  have hmem := h.1 ⟨"h", "o", "w", "ep"⟩ ⟨"we1", [("foo", "bar")]⟩ (by simp) (by decide)
  revert hmem
  decide

/-! ## C7: selector removal cascade -/

/-- C7: for every computed selector `s` currently matching exactly `N`
endpoints, `RemoveExtraComputedSelector(s)` fires exactly `N`
`OnComputedSelectorMatchStopped` events — one per currently-matching
endpoint — and after the removal no subsequent endpoint add/update ever
fires another match or match-stopped event for `s`. -/
theorem selector_removal_cascade (evalSel : Selector → Labels → Bool) (s : ARCState)
    (sel : Selector) :
    (s.removeExtraComputedSelector sel).1 =
      (s.csMatches.get sel).map (ARCEvent.csMatchStopped sel) ∧
    (s.removeExtraComputedSelector sel).1.length = (s.csMatches.get sel).length ∧
    sel ∉ (s.removeExtraComputedSelector sel).2.extraSelectors ∧
    (∀ upds ev,
      ev ∈ ((s.removeExtraComputedSelector sel).2.applyEndpointUpdates evalSel upds).1 →
      ev.csSelector ≠ some sel) := by
  refine ⟨rfl, by simp [ARCState.removeExtraComputedSelector], ?_, ?_⟩
  · simp [ARCState.removeExtraComputedSelector]
  · intro upds ev hev
    exact applyEndpointUpdates_no_removed_sel evalSel sel upds
      (s.removeExtraComputedSelector sel).2
      (by simp [ARCState.removeExtraComputedSelector]) ev hev

end CalicoCalc
